import Mathlib

/-!
Shallow embedding of the `keephistory` Django app (`models.py`, `signals.py`):
change classification (`find_change_type`), field snapshotting (`field_values`),
the history-keeping save wrapper produced by the `with_history` decorator
(`wrapper_save`, configured as the `Task` model configures it), and the
`pre_delete` receiver `close_task_updates`, together with proofs of the
specification's claims about them.

Modelling conventions:
* timestamps are abstract ticks (`Nat`);
* a model instance is its primary-key value (absent before first persistence)
  plus an ordered field mapping; since Python builds both dictionaries compared
  by `find_change_type` from the same `_meta.fields` iteration order, dict
  equality coincides with equality of these ordered mappings;
* the database tables are lists of rows; the history table's rows carry a
  unique autoincrement row id, so the Django queryset loop "filter, then set
  `valid_until` and save each matching row" acts on the table as the pointwise
  update `closeOpen`;
* the underlying persist (`super().save()` of `Task`, i.e. Django
  `Model.save`) is `persistTask`: it assigns a fresh primary key when absent,
  fills the `auto_now`/`auto_now_add` columns `updated_at`/`created_at`, writes
  the row, and bumps a persist counter `saveCount` that records that the
  underlying persist ran.
-/

namespace KeepHistory

/-- Timestamps are modelled as abstract ticks. -/
abbrev Timestamp := Nat

/-- A field value on a model instance: a string, a datetime or integer
(as ticks), or NULL. -/
inductive Value where
  | vstr : String → Value
  | vnat : Nat → Value
  | vnull : Value
  deriving DecidableEq, Repr

/-- The `OperationType` enum of `models.py`: INSERT, UPDATE, DELETE, SAVE. -/
inductive OperationType where
  | INSERT
  | UPDATE
  | DELETE
  | SAVE
  deriving DecidableEq, Repr

/-- The `.value` of each `OperationType` member in `models.py`. -/
def OperationType.value : OperationType → String
  | .INSERT => "I"
  | .UPDATE => "U"
  | .DELETE => "D"
  | .SAVE => "S"

/-- The sentinel `MAX_DATETIME = parse_datetime('3000-12-31T23:59:59.999999Z')`
of `models.py`, as a tick count strictly larger than every realistic clock
reading. -/
def MAX_DATETIME : Timestamp := 32535215999999999

/-- An ordered field mapping (field name, value), in `_meta.fields` order. -/
abbrev FieldMap := List (String × Value)

/-- A `Task` model instance: primary key (if any) and its non-pk fields. -/
structure Instance where
  pk : Option Nat
  fields : FieldMap
  deriving DecidableEq, Repr

/-- A row of the `TaskUpdate` history table: autoincrement row id, the
nullable `task` foreign key, the snapshot fields, and the `operation`,
`valid_from`, `valid_until` columns. -/
structure HistoryRecord where
  hid : Nat
  task : Option Nat
  fields : FieldMap
  operation : String
  valid_from : Timestamp
  valid_until : Timestamp
  deriving DecidableEq, Repr

/-- The state visible to the wrapper: the `Task` table, the `TaskUpdate`
table, autoincrement counters for both, and a counter of how many times the
underlying persist operation has run. -/
structure SysState where
  entities : List Instance
  history : List HistoryRecord
  nextPk : Nat
  nextHid : Nat
  saveCount : Nat
  deriving DecidableEq, Repr

/-- The empty database. -/
def initState : SysState := ⟨[], [], 1, 1, 0⟩

/-- Look a value up in a field mapping (Python `getattr`); `vnull` when the
name is absent. -/
def lookupField (m : FieldMap) (k : String) : Value :=
  match m.find? (fun kv => kv.1 = k) with
  | some kv => kv.2
  | none => Value.vnull

/-- Extract ticks from a datetime-valued field. -/
def tsOf : Value → Timestamp
  | Value.vnat t => t
  | _ => 0

/-- Set a field's value in a mapping, preserving order (Python `setattr`
on a model attribute; appended when the name is absent). -/
def setField (m : FieldMap) (k : String) (v : Value) : FieldMap :=
  if m.any (fun kv => kv.1 = k) then
    m.map (fun kv => if kv.1 = k then (k, v) else kv)
  else
    m ++ [(k, v)]

/-- `model.objects.get(pk=p)`: the stored row with primary key `p`, if any. -/
def dbGet (store : List Instance) (p : Nat) : Option Instance :=
  store.find? (fun r => r.pk = some p)

/-- Write a row into the entity table: replace the row with the same primary
key, or append when none exists. -/
def dbPut (store : List Instance) (e : Instance) : List Instance :=
  if store.any (fun r => r.pk = e.pk) then
    store.map (fun r => if r.pk = e.pk then e else r)
  else
    store ++ [e]

/-- `field_values(instance, include_pk)` of `models.py`: the mapping of the
instance's field values; the primary key (named `id`) is included only when
`include_pk` is true. -/
def field_values (e : Instance) (include_pk : Bool) : FieldMap :=
  if include_pk then
    ("id", match e.pk with | some p => Value.vnat p | none => Value.vnull) :: e.fields
  else
    e.fields

/-- `find_change_type(instance)` of `models.py`: INSERT when the instance has
no primary key or no stored counterpart exists; otherwise UPDATE when the
non-pk field mappings differ and SAVE when they are equal. -/
def find_change_type (store : List Instance) (e : Instance) : OperationType :=
  match e.pk with
  | none => OperationType.INSERT
  | some p =>
    match dbGet store p with
    | none => OperationType.INSERT
    | some old_instance =>
      if field_values old_instance false ≠ field_values e false then
        OperationType.UPDATE
      else
        OperationType.SAVE

/-- The underlying persist operation decorated by `with_history` on `Task`
(`super().save()`, i.e. Django `Model.save`): assigns a fresh primary key
when the instance has none, fills the `auto_now_add` column `created_at` on
insertion and the `auto_now` column `updated_at` on every save, writes the
row, and bumps the persist counter. -/
def persistTask (t : Timestamp) (st : SysState) (e : Instance) :
    SysState × Instance :=
  match e.pk with
  | none =>
    let e' : Instance :=
      ⟨some st.nextPk,
       setField (setField e.fields "created_at" (Value.vnat t)) "updated_at" (Value.vnat t)⟩
    ({ st with entities := dbPut st.entities e',
               nextPk := st.nextPk + 1,
               saveCount := st.saveCount + 1 }, e')
  | some p =>
    match dbGet st.entities p with
    | none =>
      let e' : Instance :=
        ⟨some p,
         setField (setField e.fields "created_at" (Value.vnat t)) "updated_at" (Value.vnat t)⟩
      ({ st with entities := dbPut st.entities e',
                 saveCount := st.saveCount + 1 }, e')
    | some _ =>
      let e' : Instance := ⟨some p, setField e.fields "updated_at" (Value.vnat t)⟩
      ({ st with entities := dbPut st.entities e',
                 saveCount := st.saveCount + 1 }, e')

/-- The pointwise effect on one history row of the interval-closing loop of
`wrapper_save` (`models.py` lines 102-105): rows of the entity `fk` with
`valid_until > ts` get `valid_until := ts`; every other row is untouched. -/
def closeRecord (fk : Option Nat) (ts : Timestamp) (r : HistoryRecord) :
    HistoryRecord :=
  if r.task = fk ∧ ts < r.valid_until then { r with valid_until := ts } else r

/-- The interval-closing loop of `wrapper_save`: `for update in
history_model.objects.filter(task=self, valid_until__gt=now_ts): update.valid_until = now_ts; update.save()`.
Under the table's unique row ids this is the pointwise update of the table. -/
def closeOpen (hist : List HistoryRecord) (fk : Option Nat) (ts : Timestamp) :
    List HistoryRecord :=
  hist.map (closeRecord fk ts)

/-- The bookkeeping `wrapper_save` performs after the underlying persist
succeeded (`models.py` lines 98-115, with `Task`'s configuration
`now_field='updated_at'`, `fk_field='task'`, `operation_field='operation'`,
`valid_from_field='valid_from'`, `valid_until_field='valid_until'`):
read `now_ts` from the instance's `updated_at`, close the open intervals,
and create one new history row with `valid_until = max_datetime or MAX_DATETIME`. -/
def historyBookkeeping (maxdt : Option Timestamp) (ct : OperationType)
    (st1 : SysState) (e' : Instance) : SysState :=
  let now_ts := tsOf (lookupField e'.fields "updated_at")
  let hist1 := closeOpen st1.history e'.pk now_ts
  let newRec : HistoryRecord :=
    ⟨st1.nextHid, e'.pk, field_values e' false, ct.value, now_ts,
     maxdt.getD MAX_DATETIME⟩
  { st1 with history := hist1 ++ [newRec], nextHid := st1.nextHid + 1 }

/-- `wrapper_save` of `models.py` as `Task.save` uses it: classify first;
when the classification is INSERT or UPDATE, run the underlying persist and
then the history bookkeeping; otherwise do nothing at all. -/
def wrapper_save (maxdt : Option Timestamp) (t : Timestamp) (st : SysState)
    (e : Instance) : SysState × Instance :=
  let change_type := find_change_type st.entities e
  if change_type = OperationType.INSERT ∨ change_type = OperationType.UPDATE then
    let st1 := (persistTask t st e).1
    let e' := (persistTask t st e).2
    (historyBookkeeping maxdt change_type st1 e', e')
  else
    (st, e)

/-- `wrapper_save` with the decorated save kept abstract and fallible, for the
error-propagation claim: `with_history(...)(save)` wraps an arbitrary `save`;
when that save raises, the exception escapes `wrapper_save` uncaught (there is
no `try` in `models.py`), carrying whatever state the save left behind, and
none of the history bookkeeping runs. -/
def wrapper_saveE
    (saveFn : Timestamp → SysState → Instance →
      Except (String × SysState) (SysState × Instance))
    (maxdt : Option Timestamp) (t : Timestamp) (st : SysState)
    (e : Instance) : Except (String × SysState) (SysState × Instance) :=
  let change_type := find_change_type st.entities e
  if change_type = OperationType.INSERT ∨ change_type = OperationType.UPDATE then
    match saveFn t st e with
    | Except.error es => Except.error es
    | Except.ok (st1, e') => Except.ok (historyBookkeeping maxdt change_type st1 e', e')
  else
    Except.ok (st, e)

/-- `close_task_updates` of `signals.py`, the `pre_delete` receiver: at the
current time `t`, every `TaskUpdate` row of the instance with
`valid_until > t` gets `valid_until := t`. -/
def close_task_updates (t : Timestamp) (hist : List HistoryRecord)
    (e : Instance) : List HistoryRecord :=
  hist.map (fun u => if u.task = e.pk ∧ t < u.valid_until then { u with valid_until := t } else u)

/-- The history rows belonging to entity `p` (foreign key `task = p`). -/
def recordsFor (p : Nat) (hist : List HistoryRecord) : List HistoryRecord :=
  hist.filter (fun r => r.task = some p)

/-- How many history rows of entity `p` are open, i.e. have the sentinel
`valid_until`. -/
def countOpen (p : Nat) (hist : List HistoryRecord) : Nat :=
  ((recordsFor p hist).filter (fun r => r.valid_until = MAX_DATETIME)).length

/-- Run a sequence of saves (each a clock reading and the in-memory instance
being saved) through `wrapper_save` with `Task`'s configuration. -/
def runSaves (st : SysState) : List (Timestamp × Instance) → SysState
  | [] => st
  | (t, e) :: evs => runSaves (wrapper_save none t st e).1 evs

/-- Whether a save would be classified INSERT or UPDATE in the given state. -/
def isEffective (st : SysState) (e : Instance) : Bool :=
  decide (find_change_type st.entities e = OperationType.INSERT ∨
          find_change_type st.entities e = OperationType.UPDATE)

/-- Whether every save of the sequence, run in order, is classified INSERT or
UPDATE in the state it actually executes in. -/
def effectiveRun (st : SysState) : List (Timestamp × Instance) → Bool
  | [] => true
  | (t, e) :: evs => isEffective st e && effectiveRun (wrapper_save none t st e).1 evs

/-- The `valid_from` column of a list of history rows, in table order. -/
def froms (recs : List HistoryRecord) : List Timestamp :=
  recs.map (fun r => r.valid_from)

/-- The `valid_until` column of a list of history rows, in table order. -/
def untils (recs : List HistoryRecord) : List Timestamp :=
  recs.map (fun r => r.valid_until)

/-- The expected `valid_until` column of an entity's history after saves at
the given times: each interval closes at the next save's time and the last
one is open at the sentinel. -/
def closersOf : List Timestamp → List Timestamp
  | [] => []
  | _ :: ts => ts ++ [MAX_DATETIME]

/-- Whether consecutive history rows are contiguous: each row's `valid_until`
equals the next row's `valid_from`. -/
def contiguousB : List HistoryRecord → Bool
  | [] => true
  | [_] => true
  | r1 :: r2 :: rest => decide (r1.valid_until = r2.valid_from) && contiguousB (r2 :: rest)

/-- The history rows of entity `p` after a run of saves followed by the
deletion-lifecycle seal at `tseal`. -/
def sealedRecsFor (p : Nat) (evs : List (Timestamp × Instance))
    (tseal : Timestamp) (edel : Instance) : List HistoryRecord :=
  recordsFor p (close_task_updates tseal (runSaves initState evs).history edel)

/-- A concrete instance of entity 1 with title "A". -/
def entA : Instance := ⟨some 1, [("title", Value.vstr "A")]⟩

/-- A concrete instance of entity 1 with title "B". -/
def entB : Instance := ⟨some 1, [("title", Value.vstr "B")]⟩

/-- A concrete state whose entity table already holds `entA`. -/
def stA : SysState := ⟨[entA], [], 2, 1, 0⟩

/-- A concrete open history row of entity 1. -/
def recI : HistoryRecord :=
  ⟨1, some 1, [("title", Value.vstr "A")], "I", 0, MAX_DATETIME⟩

/-- A concrete history table holding the single open row `recI`. -/
def hist0 : List HistoryRecord := [recI]

/-- A concrete underlying save that always raises, leaving the state as it
found it. -/
def failSave (msg : String) :
    Timestamp → SysState → Instance →
      Except (String × SysState) (SysState × Instance) :=
  fun _ st _ => Except.error (msg, st)

/-- The underlying persist never touches the history table. -/
lemma persistTask_history (t : Timestamp) (st : SysState) (e : Instance) :
    (persistTask t st e).1.history = st.history := by
  unfold persistTask
  rcases e with ⟨pk, fs⟩
  cases pk with
  | none => rfl
  | some p =>
    dsimp only
    cases hg : dbGet st.entities p <;> simp [hg]

/-- The underlying persist never touches the history autoincrement counter. -/
lemma persistTask_nextHid (t : Timestamp) (st : SysState) (e : Instance) :
    (persistTask t st e).1.nextHid = st.nextHid := by
  unfold persistTask
  rcases e with ⟨pk, fs⟩
  cases pk with
  | none => rfl
  | some p =>
    dsimp only
    cases hg : dbGet st.entities p <;> simp [hg]

/-- The underlying persist always bumps the persist counter by one. -/
lemma persistTask_saveCount (t : Timestamp) (st : SysState) (e : Instance) :
    (persistTask t st e).1.saveCount = st.saveCount + 1 := by
  unfold persistTask
  rcases e with ⟨pk, fs⟩
  cases pk with
  | none => rfl
  | some p =>
    dsimp only
    cases hg : dbGet st.entities p <;> simp [hg]

/-- The underlying persist keeps an already-present primary key. -/
lemma persistTask_pk_of_some (t : Timestamp) (st : SysState) (e : Instance)
    (p : Nat) (h : e.pk = some p) : (persistTask t st e).2.pk = some p := by
  unfold persistTask
  rcases e with ⟨pk, fs⟩
  dsimp only at h ⊢
  subst h
  cases hg : dbGet st.entities p <;> simp [hg]

/-- Looking up a name absent from the head of a mapping skips the head. -/
lemma lookupField_cons_of_ne (a : String × Value) (m : FieldMap) (k : String)
    (h : ¬ a.1 = k) : lookupField (a :: m) k = lookupField m k := by
  simp [lookupField, List.find?, h]

/-- Setting a field and reading it back yields the written value. -/
lemma lookupField_setField (m : FieldMap) (k : String) (v : Value) :
    lookupField (setField m k v) k = v := by
  induction m with
  | nil => simp [setField, lookupField, List.find?]
  | cons a m ih =>
    by_cases h1 : a.1 = k
    · have hany : (a :: m).any (fun kv => kv.1 = k) = true := by
        simp [List.any_cons, h1]
      simp only [setField, hany, if_true, List.map_cons, h1, if_pos]
      simp [lookupField, List.find?]
    · by_cases h2 : m.any (fun kv => kv.1 = k)
      · have hany : (a :: m).any (fun kv => kv.1 = k) = true := by
          simp [List.any_cons, h2]
        have hstep : setField (a :: m) k v = a :: setField m k v := by
          simp [setField, hany, h2, h1]
        rw [hstep, lookupField_cons_of_ne a _ k h1, ih]
      · have hany : (a :: m).any (fun kv => kv.1 = k) = false := by
          simp [List.any_cons, h1, h2]
        have hstep : setField (a :: m) k v = a :: setField m k v := by
          simp [setField, hany, h2, h1]
        rw [hstep, lookupField_cons_of_ne a _ k h1, ih]

/-- After the underlying persist, the instance's `updated_at` is the clock
reading of the save (the `auto_now` column), so `wrapper_save`'s
`now_ts = getattr(self, 'updated_at')` is that clock reading. -/
lemma persistTask_updated_at (t : Timestamp) (st : SysState) (e : Instance) :
    tsOf (lookupField (persistTask t st e).2.fields "updated_at") = t := by
  unfold persistTask
  rcases e with ⟨pk, fs⟩
  cases pk with
  | none => simp [lookupField_setField, tsOf]
  | some p =>
    dsimp only
    cases hg : dbGet st.entities p <;> simp [hg, lookupField_setField, tsOf]

/-- On an effective (INSERT/UPDATE) classification, `wrapper_save` is the
underlying persist followed by the history bookkeeping. -/
lemma wrapper_save_eff (maxdt : Option Timestamp) (t : Timestamp)
    (st : SysState) (e : Instance)
    (h : find_change_type st.entities e = OperationType.INSERT ∨
         find_change_type st.entities e = OperationType.UPDATE) :
    wrapper_save maxdt t st e =
      (historyBookkeeping maxdt (find_change_type st.entities e)
        (persistTask t st e).1 (persistTask t st e).2,
       (persistTask t st e).2) := by
  unfold wrapper_save
  rw [if_pos h]

/-- C3: `find_change_type` returns INSERT exactly when the instance has no
primary key or no persisted counterpart with that key exists; a missing
counterpart yields INSERT rather than an error. -/
theorem classify_insert_iff (store : List Instance) (e : Instance) :
    find_change_type store e = OperationType.INSERT ↔
      (e.pk = none ∨ ∃ p, e.pk = some p ∧ dbGet store p = none) := by
  cases hpk : e.pk with
  | none => simp [find_change_type, hpk]
  | some p =>
    cases hg : dbGet store p with
    | none => simp [find_change_type, hpk, hg]
    | some old_instance =>
      simp only [find_change_type, hpk, hg]
      constructor
      · intro h
        by_cases hv : field_values old_instance false ≠ field_values e false
        · rw [if_pos hv] at h
          exact absurd h (by simp)
        · rw [if_neg hv] at h
          exact absurd h (by simp)
      · rintro (h | ⟨q, hq, hgq⟩)
        · simp at h
        · injection hq with hq2
          subst hq2
          rw [hg] at hgq
          simp at hgq

/-- C4: with an identity and an existing persisted counterpart, the
classification is UPDATE exactly when the non-identity field mappings differ
and SAVE (no change) exactly when they are equal. -/
theorem classify_update_iff (store : List Instance) (e old_instance : Instance)
    (p : Nat) (hpk : e.pk = some p) (hold : dbGet store p = some old_instance) :
    (find_change_type store e = OperationType.UPDATE ↔
       field_values old_instance false ≠ field_values e false) ∧
    (find_change_type store e = OperationType.SAVE ↔
       field_values old_instance false = field_values e false) := by
  simp only [find_change_type, hpk, hold]
  by_cases hv : field_values old_instance false = field_values e false
  · rw [if_neg (by simpa using hv)]
    simp [hv]
  · rw [if_pos (by simpa using hv)]
    simp [hv]

/-- Witness for C4 at a concrete store and instance: the stored row has
title "A", the incoming instance title "B", so the save classifies UPDATE. -/
theorem classify_update_iff_witness :
    (find_change_type [entA] entB = OperationType.UPDATE ↔
       field_values entA false ≠ field_values entB false) ∧
    (find_change_type [entA] entB = OperationType.SAVE ↔
       field_values entA false = field_values entB false) :=
  classify_update_iff [entA] entB entA 1 (by decide) (by decide)

/-- C2 counterexample: at a concrete state whose stored row equals the
incoming instance, the save classifies SAVE (no change), and the wrapped save
does not perform the underlying persist (the persist counter stays 0) and
leaves the whole state untouched — contradicting the claim that the no-op
save still writes through to the entity store. -/
theorem noop_save_counterexample :
    find_change_type stA.entities entA = OperationType.SAVE ∧
    stA.saveCount = 0 ∧
    (wrapper_save none 5 stA entA).1.saveCount = 0 ∧
    (wrapper_save none 5 stA entA).1 = stA := by
  decide

/-- C2 (amended): on a SAVE (no-change) classification, the wrapped save
returns without performing the underlying persist and without creating or
modifying any history row. -/
theorem noop_save_skips_persist (maxdt : Option Timestamp) (t : Timestamp)
    (st : SysState) (e : Instance)
    (h : find_change_type st.entities e = OperationType.SAVE) :
    (wrapper_save maxdt t st e).1.saveCount = st.saveCount ∧
    (wrapper_save maxdt t st e).1.history = st.history := by
  have hcond : ¬ (find_change_type st.entities e = OperationType.INSERT ∨
      find_change_type st.entities e = OperationType.UPDATE) := by
    rw [h]; simp
  unfold wrapper_save
  rw [if_neg hcond]
  exact ⟨rfl, rfl⟩

/-- Witness for the amended C2 at a concrete no-change save. -/
theorem noop_save_skips_persist_witness :
    find_change_type stA.entities entA = OperationType.SAVE ∧
    ((wrapper_save none 7 stA entA).1.saveCount = stA.saveCount ∧
     (wrapper_save none 7 stA entA).1.history = stA.history) :=
  ⟨by decide, noop_save_skips_persist none 7 stA entA (by decide)⟩

/-- C10: on a SAVE (no-change) classification, the wrapped save performs no
operation of any kind: the resulting state and instance are exactly the
inputs (no persist, no history read or write, no counter change). -/
theorem noop_save_is_identity (maxdt : Option Timestamp) (t : Timestamp)
    (st : SysState) (e : Instance)
    (h : find_change_type st.entities e = OperationType.SAVE) :
    wrapper_save maxdt t st e = (st, e) := by
  have hcond : ¬ (find_change_type st.entities e = OperationType.INSERT ∨
      find_change_type st.entities e = OperationType.UPDATE) := by
    rw [h]; simp
  unfold wrapper_save
  rw [if_neg hcond]

/-- Witness for C10 at a concrete no-change save. -/
theorem noop_save_is_identity_witness :
    find_change_type stA.entities entA = OperationType.SAVE ∧
    wrapper_save none 9 stA entA = (stA, entA) :=
  ⟨by decide, noop_save_is_identity none 9 stA entA (by decide)⟩

/-- Closing one row only rewrites `valid_until`, and only under the closing
condition. -/
lemma closeRecord_eq_update (fk : Option Nat) (ts : Timestamp)
    (r : HistoryRecord) :
    closeRecord fk ts r =
      { r with valid_until :=
          if r.task = fk ∧ ts < r.valid_until then ts else r.valid_until } := by
  unfold closeRecord
  by_cases hc : r.task = fk ∧ ts < r.valid_until
  · rw [if_pos hc, if_pos hc]
  · rw [if_neg hc, if_neg hc]

/-- The interval-closing loop never adds or removes rows. -/
lemma closeOpen_length (hist : List HistoryRecord) (fk : Option Nat)
    (ts : Timestamp) : (closeOpen hist fk ts).length = hist.length := by
  simp [closeOpen]

/-- Row-by-row effect of the interval-closing loop. -/
lemma closeOpen_getElem (hist : List HistoryRecord) (fk : Option Nat)
    (ts : Timestamp) (i : Nat) (r : HistoryRecord) (hi : hist[i]? = some r) :
    (closeOpen hist fk ts)[i]? =
      some { r with valid_until :=
        if r.task = fk ∧ ts < r.valid_until then ts else r.valid_until } := by
  unfold closeOpen
  rw [List.getElem?_map, hi]
  rw [Option.map_some']
  rw [closeRecord_eq_update]

/-- The `pre_delete` receiver performs exactly the interval-closing loop of
the wrapper, keyed by the deleted instance. -/
lemma close_task_updates_eq_closeOpen (t : Timestamp)
    (hist : List HistoryRecord) (e : Instance) :
    close_task_updates t hist e = closeOpen hist e.pk t := rfl

/-- C6: the interval-closing step sets `valid_until := asOf` on exactly the
rows of the given entity whose `valid_until` is strictly greater than `asOf`,
leaves every other row untouched, changes no other field, and adds or removes
nothing; the `pre_delete` receiver runs this very step. -/
theorem closeOpen_frame (hist : List HistoryRecord) (fk : Option Nat)
    (ts : Timestamp) :
    (closeOpen hist fk ts).length = hist.length ∧
    (∀ (i : Nat) (r : HistoryRecord), hist[i]? = some r →
       (closeOpen hist fk ts)[i]? =
         some { r with valid_until :=
           if r.task = fk ∧ ts < r.valid_until then ts else r.valid_until }) ∧
    (∀ t e, close_task_updates t hist e = closeOpen hist e.pk t) :=
  ⟨closeOpen_length hist fk ts,
   fun i r hi => closeOpen_getElem hist fk ts i r hi,
   fun t e => close_task_updates_eq_closeOpen t hist e⟩

/-- Witness for C6 on a concrete one-row history: the open row of entity 1
closes to 30. -/
theorem closeOpen_frame_witness :
    (closeOpen hist0 (some 1) 30).length = hist0.length ∧
    (closeOpen hist0 (some 1) 30)[0]? =
      some { recI with valid_until :=
        if recI.task = some 1 ∧ 30 < recI.valid_until then 30 else recI.valid_until } :=
  ⟨(closeOpen_frame hist0 (some 1) 30).1,
   (closeOpen_frame hist0 (some 1) 30).2.1 0 recI rfl⟩

/-- C8: the deletion hook closes the entity's open rows at the given clock
reading, creates no row, rewrites no field other than `valid_until` (in
particular every `operation` code is left unchanged, so no Delete code ever
appears), and the classifier itself never yields DELETE. -/
theorem seal_frame (t : Timestamp) (hist : List HistoryRecord) (e : Instance) :
    (close_task_updates t hist e).length = hist.length ∧
    (∀ (i : Nat) (r : HistoryRecord), hist[i]? = some r →
       (close_task_updates t hist e)[i]? =
         some { r with valid_until :=
           if r.task = e.pk ∧ t < r.valid_until then t else r.valid_until }) ∧
    ((∀ r ∈ hist, r.operation ≠ "D") →
       ∀ r2 ∈ close_task_updates t hist e, r2.operation ≠ "D") ∧
    (∀ store e2, find_change_type store e2 ≠ OperationType.DELETE) := by
  refine ⟨?_, ?_, ?_, ?_⟩
  · rw [close_task_updates_eq_closeOpen]
    exact closeOpen_length hist e.pk t
  · intro i r hi
    rw [close_task_updates_eq_closeOpen]
    exact closeOpen_getElem hist e.pk t i r hi
  · intro hD r2 hr2
    rw [close_task_updates_eq_closeOpen] at hr2
    obtain ⟨r, hr, hmap⟩ := List.mem_map.mp hr2
    rw [← hmap, closeRecord_eq_update]
    exact hD r hr
  · intro store e2
    cases hpk : e2.pk with
    | none => simp [find_change_type, hpk]
    | some p =>
      cases hg : dbGet store p with
      | none => simp [find_change_type, hpk, hg]
      | some old_instance =>
        simp only [find_change_type, hpk, hg]
        by_cases hv : field_values old_instance false ≠ field_values e2 false
        · rw [if_pos hv]
          simp
        · rw [if_neg hv]
          simp

/-- Witness for C8 on a concrete one-row history and deletion at time 30. -/
theorem seal_frame_witness :
    (close_task_updates 30 hist0 entA).length = hist0.length ∧
    (close_task_updates 30 hist0 entA)[0]? =
      some { recI with valid_until :=
        if recI.task = entA.pk ∧ 30 < recI.valid_until then 30 else recI.valid_until } ∧
    (∀ r2 ∈ close_task_updates 30 hist0 entA, r2.operation ≠ "D") :=
  ⟨(seal_frame 30 hist0 entA).1,
   (seal_frame 30 hist0 entA).2.1 0 recI rfl,
   (seal_frame 30 hist0 entA).2.2.1 (by decide)⟩

/-- C7: an effective (INSERT/UPDATE) save appends exactly one new history
row — snapshot of the saved instance's non-identity fields, foreign key to
the saved instance, the classification's operation code, `valid_from` the
save's clock reading, `valid_until` the configured sentinel (the fixed
far-future constant by default) — after the interval-closing pass, which is
the only part that touches existing rows. -/
theorem effective_save_appends_record (maxdt : Option Timestamp)
    (t : Timestamp) (st : SysState) (e : Instance)
    (h : find_change_type st.entities e = OperationType.INSERT ∨
         find_change_type st.entities e = OperationType.UPDATE) :
    (wrapper_save maxdt t st e).1.history =
      closeOpen st.history (wrapper_save maxdt t st e).2.pk t ++
        [{ hid := st.nextHid,
           task := (wrapper_save maxdt t st e).2.pk,
           fields := field_values (wrapper_save maxdt t st e).2 false,
           operation := (find_change_type st.entities e).value,
           valid_from := t,
           valid_until := maxdt.getD MAX_DATETIME }] ∧
    (wrapper_save maxdt t st e).1.history.length = st.history.length + 1 := by
  rw [wrapper_save_eff maxdt t st e h]
  constructor
  · simp only [historyBookkeeping, persistTask_updated_at, persistTask_history,
      persistTask_nextHid]
  · simp only [historyBookkeeping, persistTask_updated_at, persistTask_history,
      persistTask_nextHid]
    simp [closeOpen]

/-- Witness for C7: updating entity 1's title from "A" to "B" at time 10. -/
theorem effective_save_appends_record_witness :
    (wrapper_save none 10 stA entB).1.history =
      closeOpen stA.history (wrapper_save none 10 stA entB).2.pk 10 ++
        [{ hid := stA.nextHid,
           task := (wrapper_save none 10 stA entB).2.pk,
           fields := field_values (wrapper_save none 10 stA entB).2 false,
           operation := (find_change_type stA.entities entB).value,
           valid_from := 10,
           valid_until := Option.getD none MAX_DATETIME }] ∧
    (wrapper_save none 10 stA entB).1.history.length = stA.history.length + 1 :=
  effective_save_appends_record none 10 stA entB (by decide)

/-- C5: on an effective (INSERT/UPDATE) save, the underlying persist runs
before any interval-closing or record-creation step, so when the persist
raises, the error escapes the wrapper uncaught and the history store is
exactly as the persist left it — unchanged, when the persist does not touch
the history table. -/
theorem persist_failure_propagates
    (saveFn : Timestamp → SysState → Instance →
       Except (String × SysState) (SysState × Instance))
    (maxdt : Option Timestamp) (t : Timestamp) (st : SysState) (e : Instance)
    (msg : String) (stF : SysState)
    (hct : find_change_type st.entities e = OperationType.INSERT ∨
           find_change_type st.entities e = OperationType.UPDATE)
    (hfail : saveFn t st e = Except.error (msg, stF))
    (hframe : stF.history = st.history) :
    wrapper_saveE saveFn maxdt t st e = Except.error (msg, stF) ∧
    ∀ m s, wrapper_saveE saveFn maxdt t st e = Except.error (m, s) →
      s.history = st.history := by
  have h1 : wrapper_saveE saveFn maxdt t st e = Except.error (msg, stF) := by
    unfold wrapper_saveE
    rw [if_pos hct, hfail]
  refine ⟨h1, ?_⟩
  intro m s hs
  rw [h1] at hs
  injection hs with h2
  injection h2 with ha hb
  rw [← hb]
  exact hframe

/-- Witness for C5: a fresh insert whose underlying persist raises "db down". -/
theorem persist_failure_propagates_witness :
    (find_change_type initState.entities entA = OperationType.INSERT ∨
     find_change_type initState.entities entA = OperationType.UPDATE) ∧
    (wrapper_saveE (failSave "db down") none 3 initState entA =
       Except.error ("db down", initState) ∧
     ∀ m s, wrapper_saveE (failSave "db down") none 3 initState entA =
         Except.error (m, s) → s.history = initState.history) :=
  ⟨Or.inl (by decide),
   persist_failure_propagates (failSave "db down") none 3 initState entA
     "db down" initState (Or.inl (by decide)) rfl rfl⟩

/-- Closing a row never changes its foreign key. -/
lemma closeRecord_task (fk : Option Nat) (ts : Timestamp) (r : HistoryRecord) :
    (closeRecord fk ts r).task = r.task := by
  rw [closeRecord_eq_update]

/-- Closing a row never changes its `valid_from`. -/
lemma closeRecord_valid_from (fk : Option Nat) (ts : Timestamp)
    (r : HistoryRecord) : (closeRecord fk ts r).valid_from = r.valid_from := by
  rw [closeRecord_eq_update]

/-- Every row selected for an entity carries that entity's foreign key. -/
lemma mem_recordsFor (p : Nat) (hist : List HistoryRecord) (r : HistoryRecord)
    (h : r ∈ recordsFor p hist) : r.task = some p := by
  have h2 := (List.mem_filter.mp h).2
  simpa using h2

/-- Selecting an entity's rows distributes over table append. -/
lemma recordsFor_append (p : Nat) (h1 h2 : List HistoryRecord) :
    recordsFor p (h1 ++ h2) = recordsFor p h1 ++ recordsFor p h2 := by
  simp [recordsFor, List.filter_append]

/-- Selecting an entity's rows commutes with the interval-closing pass,
because closing never rewrites the foreign key. -/
lemma recordsFor_closeOpen (p : Nat) (hist : List HistoryRecord)
    (fk : Option Nat) (ts : Timestamp) :
    recordsFor p (closeOpen hist fk ts) =
      (recordsFor p hist).map (closeRecord fk ts) := by
  unfold recordsFor closeOpen
  rw [List.filter_map]
  congr 1
  apply List.filter_congr
  intro r _
  simp [Function.comp, closeRecord_task]

/-- The interval-closing pass never changes the `valid_from` column. -/
lemma froms_map_close (fk : Option Nat) (ts : Timestamp)
    (recs : List HistoryRecord) :
    froms (recs.map (closeRecord fk ts)) = froms recs := by
  simp only [froms, List.map_map, Function.comp_def, closeRecord_valid_from]

/-- Effect of the interval-closing pass on the `valid_until` column of an
entity's rows when all previously-closed rows closed at or before `t` and
one row is open: the closed rows stay as they are and the open row closes
at `t`. -/
lemma untils_map_close (p : Nat) (t : Timestamp) (recs : List HistoryRecord)
    (us : List Timestamp)
    (htask : ∀ r ∈ recs, r.task = some p)
    (hu : untils recs = us ++ [MAX_DATETIME])
    (hle : ∀ s ∈ us, s ≤ t)
    (ht : t < MAX_DATETIME) :
    untils (recs.map (closeRecord (some p) t)) = us ++ [t] := by
  induction recs generalizing us with
  | nil =>
    exfalso
    have h0 : ([] : List Timestamp) = us ++ [MAX_DATETIME] := hu
    exact absurd h0.symm (by simp)
  | cons r rest ih =>
    cases us with
    | nil =>
      have h1 : r.valid_until = MAX_DATETIME ∧ untils rest = [] := by
        simpa [untils] using hu
      have hrest : rest = [] := by
        have h2 := h1.2
        simpa [untils, List.map_eq_nil_iff] using h2
      subst hrest
      have htask_r : r.task = some p := htask r (by simp)
      simp only [List.map_cons, List.map_nil, untils, List.nil_append]
      rw [closeRecord_eq_update]
      simp [htask_r, h1.1, ht]
    | cons u us2 =>
      have h1 : r.valid_until = u ∧ untils rest = us2 ++ [MAX_DATETIME] := by
        simpa [untils] using hu
      have hut : u ≤ t := hle u (by simp)
      have hclose : closeRecord (some p) t r = r := by
        have hnc : ¬ (r.task = some p ∧ t < r.valid_until) := by
          rintro ⟨-, hlt⟩
          rw [h1.1] at hlt
          exact absurd hlt (not_lt.mpr hut)
        unfold closeRecord
        rw [if_neg hnc]
      have ih2 := ih us2 (fun r2 hr2 => htask r2 (by simp [hr2])) h1.2
        (fun s hs => hle s (by simp [hs]))
      have hhead : untils (List.map (closeRecord (some p) t) (r :: rest)) =
          (closeRecord (some p) t r).valid_until ::
            untils (List.map (closeRecord (some p) t) rest) := by
        simp [untils]
      rw [hhead, hclose, h1.1, ih2]
      simp

/-- The `valid_from` column distributes over table append. -/
lemma froms_append (a b : List HistoryRecord) :
    froms (a ++ b) = froms a ++ froms b := by
  simp [froms]

/-- The `valid_until` column distributes over table append. -/
lemma untils_append (a b : List HistoryRecord) :
    untils (a ++ b) = untils a ++ untils b := by
  simp [untils]

/-- One effective (INSERT/UPDATE) save on entity `p` at a clock reading `t`
at or after every prior boundary: the entity's `valid_from` column gains `t`
and its `valid_until` column keeps the closed boundaries, closes the open row
at `t`, and opens a new row at the sentinel. -/
lemma wrapper_step_timeline (p : Nat) (t : Timestamp) (st : SysState)
    (e : Instance) (ts : List Timestamp)
    (hpk : e.pk = some p)
    (heff : isEffective st e = true)
    (hf : froms (recordsFor p st.history) = ts)
    (hu : untils (recordsFor p st.history) = closersOf ts)
    (hle : ∀ s ∈ ts, s ≤ t)
    (ht : t < MAX_DATETIME) :
    froms (recordsFor p (wrapper_save none t st e).1.history) = ts ++ [t] ∧
    untils (recordsFor p (wrapper_save none t st e).1.history) =
      closersOf (ts ++ [t]) := by
  have heff2 : find_change_type st.entities e = OperationType.INSERT ∨
      find_change_type st.entities e = OperationType.UPDATE := by
    have := of_decide_eq_true heff
    exact this
  rw [wrapper_save_eff none t st e heff2]
  have hpk2 : (persistTask t st e).2.pk = some p :=
    persistTask_pk_of_some t st e p hpk
  simp only [historyBookkeeping, persistTask_updated_at, persistTask_history,
    persistTask_nextHid, Option.getD_none, hpk2]
  rw [recordsFor_append, recordsFor_closeOpen]
  have hnewtask : recordsFor p
      [{ hid := st.nextHid, task := some p,
         fields := field_values (persistTask t st e).2 false,
         operation := (find_change_type st.entities e).value,
         valid_from := t, valid_until := MAX_DATETIME }] =
      [{ hid := st.nextHid, task := some p,
         fields := field_values (persistTask t st e).2 false,
         operation := (find_change_type st.entities e).value,
         valid_from := t, valid_until := MAX_DATETIME }] := by
    simp [recordsFor]
  rw [hnewtask]
  constructor
  · rw [froms_append, froms_map_close, hf]
    rfl
  · rw [untils_append]
    cases hts0 : ts with
    | nil =>
      have hrecs : recordsFor p st.history = [] := by
        rw [hts0] at hf
        simpa [froms, List.map_eq_nil_iff] using hf
      rw [hrecs]
      simp [untils, closersOf]
    | cons t1 ts2 =>
      have hu2 : untils (recordsFor p st.history) = ts2 ++ [MAX_DATETIME] := by
        rw [hu, hts0]
        rfl
      have hclosed := untils_map_close p t (recordsFor p st.history) ts2
        (fun r hr => mem_recordsFor p st.history r hr) hu2
        (fun s hs => hle s (by simp [hts0, hs])) ht
      rw [hclosed]
      simp [untils, closersOf]

/-- Running a sequence of effective saves on entity `p`, with non-decreasing
clock readings below the sentinel and at or after every prior boundary,
extends the entity's `valid_from` column by the sequence's times and keeps
the `valid_until` column one transition behind, ending open at the
sentinel. -/
lemma runSaves_timeline (p : Nat) (evs : List (Timestamp × Instance)) :
    ∀ (st : SysState) (ts : List Timestamp),
    froms (recordsFor p st.history) = ts →
    untils (recordsFor p st.history) = closersOf ts →
    (∀ te ∈ evs, te.2.pk = some p) →
    (∀ te ∈ evs, te.1 < MAX_DATETIME) →
    (∀ s ∈ ts, ∀ te ∈ evs, s ≤ te.1) →
    (evs.map Prod.fst).Pairwise (· ≤ ·) →
    effectiveRun st evs = true →
    froms (recordsFor p (runSaves st evs).history) = ts ++ evs.map Prod.fst ∧
    untils (recordsFor p (runSaves st evs).history) =
      closersOf (ts ++ evs.map Prod.fst) := by
  induction evs with
  | nil =>
    intro st ts hf hu _ _ _ _ _
    simpa [runSaves] using ⟨hf, hu⟩
  | cons te rest ih =>
    intro st ts hf hu hpk hts hle hmono heffr
    obtain ⟨t, e⟩ := te
    have heffr2 : isEffective st e = true ∧
        effectiveRun (wrapper_save none t st e).1 rest = true := by
      simpa [effectiveRun] using heffr
    have hstep := wrapper_step_timeline p t st e ts (hpk (t, e) (by simp))
      heffr2.1 hf hu (fun s hs => hle s hs (t, e) (by simp))
      (hts (t, e) (by simp))
    have hmono2 : (∀ b ∈ rest.map Prod.fst, t ≤ b) ∧
        (rest.map Prod.fst).Pairwise (· ≤ ·) := by
      rw [List.map_cons] at hmono
      exact List.pairwise_cons.mp hmono
    have hle2 : ∀ s ∈ ts ++ [t], ∀ te2 ∈ rest, s ≤ te2.1 := by
      intro s hs te2 h2
      rcases List.mem_append.mp hs with hsl | hsr
      · exact hle s hsl te2 (by simp [h2])
      · have hst : s = t := by simpa using hsr
        subst hst
        exact hmono2.1 te2.1 (List.mem_map_of_mem Prod.fst h2)
    have ihr := ih (wrapper_save none t st e).1 (ts ++ [t]) hstep.1 hstep.2
      (fun te2 h2 => hpk te2 (by simp [h2]))
      (fun te2 h2 => hts te2 (by simp [h2]))
      hle2 hmono2.2 heffr2.2
    have hshape : ts ++ ((t, e) :: rest).map Prod.fst =
        (ts ++ [t]) ++ rest.map Prod.fst := by
      simp
    rw [show runSaves st ((t, e) :: rest) =
        runSaves (wrapper_save none t st e).1 rest from rfl, hshape]
    exact ihr

/-- Counting an entity's open rows only needs the `valid_until` column. -/
lemma countOpen_eq_count (p : Nat) (hist : List HistoryRecord) :
    countOpen p hist =
      ((untils (recordsFor p hist)).filter
        (fun u => u = MAX_DATETIME)).length := by
  unfold countOpen untils
  rw [List.filter_map]
  rw [List.length_map]
  rfl

/-- The expected `valid_until` column after at least one save, all of whose
times are below the sentinel, holds the sentinel exactly once. -/
lemma closersOf_one_open (T : List Timestamp) (hne : T ≠ [])
    (hlt : ∀ s ∈ T, s < MAX_DATETIME) :
    ((closersOf T).filter (fun u => u = MAX_DATETIME)).length = 1 := by
  cases T with
  | nil => exact absurd rfl hne
  | cons t1 T2 =>
    simp only [closersOf]
    rw [List.filter_append]
    have h1 : T2.filter (fun u => decide (u = MAX_DATETIME)) = [] := by
      rw [List.filter_eq_nil_iff]
      intro a ha
      have halt := hlt a (by simp [ha])
      simp only [decide_eq_true_eq]
      exact Nat.ne_of_lt halt
    rw [h1]
    simp

/-- After the deletion-lifecycle seal at a pre-sentinel clock reading, the
entity has no open row at all. -/
lemma countOpen_seal_zero (p : Nat) (hist : List HistoryRecord) (e : Instance)
    (t : Timestamp) (hpk : e.pk = some p) (ht : t < MAX_DATETIME) :
    countOpen p (close_task_updates t hist e) = 0 := by
  unfold countOpen
  rw [List.length_eq_zero, List.filter_eq_nil_iff]
  intro r hr
  have htask : r.task = some p := mem_recordsFor p _ r hr
  have hmem : r ∈ close_task_updates t hist e := (List.mem_filter.mp hr).1
  rw [close_task_updates_eq_closeOpen] at hmem
  obtain ⟨r0, _, hmap⟩ := List.mem_map.mp hmem
  simp only [decide_eq_true_eq]
  by_cases hc : r0.task = e.pk ∧ t < r0.valid_until
  · have hvu : r.valid_until = t := by
      rw [← hmap]
      unfold closeRecord
      rw [if_pos hc]
    rw [hvu]
    exact Nat.ne_of_lt ht
  · have hr0 : r = r0 := by
      rw [← hmap]
      unfold closeRecord
      rw [if_neg hc]
    rw [hr0] at htask ⊢
    have hc1 : r0.task = e.pk := by
      rw [hpk]
      exact htask
    have h2 : ¬ t < r0.valid_until := fun hlt => hc ⟨hc1, hlt⟩
    exact Nat.ne_of_lt (lt_of_le_of_lt (Nat.le_of_not_lt h2) ht)

/-- C1: for one entity saved through the wrapper with non-decreasing
pre-sentinel clock readings, after any nonempty sequence of effective
(INSERT/UPDATE) saves exactly one of its history rows is open at the
sentinel, and after the deletion-lifecycle seal zero rows are open. -/
theorem one_open_record_invariant (p : Nat)
    (evs : List (Timestamp × Instance)) (tseal : Timestamp) (edel : Instance)
    (hne : evs ≠ [])
    (hpk : ∀ te ∈ evs, te.2.pk = some p)
    (hts : ∀ te ∈ evs, te.1 < MAX_DATETIME)
    (hmono : (evs.map Prod.fst).Pairwise (· ≤ ·))
    (heff : effectiveRun initState evs = true)
    (hdel : edel.pk = some p)
    (hseal : tseal < MAX_DATETIME) :
    countOpen p (runSaves initState evs).history = 1 ∧
    countOpen p
      (close_task_updates tseal (runSaves initState evs).history edel) = 0 := by
  have hrun := runSaves_timeline p evs initState [] rfl rfl hpk hts
    (by intro s hs; exact absurd hs (by simp)) hmono heff
  constructor
  · rw [countOpen_eq_count, hrun.2]
    rw [List.nil_append]
    apply closersOf_one_open
    · simpa using hne
    · intro s hs
      obtain ⟨te, hte, hfe⟩ := List.mem_map.mp hs
      rw [← hfe]
      exact hts te hte
  · exact countOpen_seal_zero p (runSaves initState evs).history edel tseal
      hdel hseal

/-- Witness for C1: insert entity 1 at time 0, update it at time 10, then
seal at time 30. -/
theorem one_open_record_invariant_witness :
    ([((0 : Timestamp), entA), (10, entB)] ≠
       ([] : List (Timestamp × Instance))) ∧
    (countOpen 1 (runSaves initState [(0, entA), (10, entB)]).history = 1 ∧
     countOpen 1 (close_task_updates 30
       (runSaves initState [(0, entA), (10, entB)]).history entA) = 0) :=
  ⟨by decide,
   one_open_record_invariant 1 [(0, entA), (10, entB)] 30 entA (by decide)
     (by decide) (by decide) (by decide) (by decide) (by decide) (by decide)⟩

/-- A row list whose `valid_until` column is its own `valid_from` column
shifted by one (ending at `x`) is contiguous: each row closes where the next
opens. -/
lemma contiguousB_of_untils (recs : List HistoryRecord) (x : Timestamp)
    (h : untils recs = (froms recs).drop 1 ++ [x]) :
    contiguousB recs = true := by
  induction recs with
  | nil => rfl
  | cons r1 rest ih =>
    cases rest with
    | nil => rfl
    | cons r2 rest2 =>
      simp only [untils, froms, List.map_cons, List.drop_succ_cons,
        List.drop_zero, List.cons_append, List.cons.injEq] at h
      simp only [contiguousB, Bool.and_eq_true, decide_eq_true_eq]
      refine ⟨h.1, ih ?_⟩
      simp only [untils, froms, List.map_cons, List.drop_succ_cons,
        List.drop_zero, List.cons_append]
      exact h.2

/-- In a contiguous row list with non-decreasing `valid_from` boundaries all
at or below the final close `x`, every interval is well formed:
`valid_from ≤ valid_until`. -/
lemma from_le_until_of_untils (recs : List HistoryRecord) (x : Timestamp)
    (h : untils recs = (froms recs).drop 1 ++ [x])
    (hmono : (froms recs).Pairwise (· ≤ ·))
    (hlast : ∀ s ∈ froms recs, s ≤ x) :
    ∀ r ∈ recs, r.valid_from ≤ r.valid_until := by
  induction recs with
  | nil =>
    intro r hr
    exact absurd hr (by simp)
  | cons r1 rest ih =>
    cases rest with
    | nil =>
      intro r hr
      have hr1 : r = r1 := by simpa using hr
      subst hr1
      have hux : r.valid_until = x := by
        simpa [untils, froms] using h
      have hfx : r.valid_from ≤ x := hlast r.valid_from (by simp [froms])
      rw [hux]
      exact hfx
    | cons r2 rest2 =>
      simp only [untils, froms, List.map_cons, List.drop_succ_cons,
        List.drop_zero, List.cons_append, List.cons.injEq] at h
      have hp := List.pairwise_cons.mp
        (show List.Pairwise (· ≤ ·)
            (r1.valid_from :: froms (r2 :: rest2)) by
          simpa [froms] using hmono)
      intro r hr
      rcases List.mem_cons.mp hr with hr1 | hrest
      · subst hr1
        rw [h.1]
        exact hp.1 r2.valid_from (by simp [froms])
      · refine ih ?_ hp.2 ?_ r hrest
        · simp only [untils, froms, List.map_cons, List.drop_succ_cons,
            List.drop_zero, List.cons_append]
          exact h.2
        · intro s hs
          exact hlast s (List.mem_cons_of_mem r1.valid_from hs)

/-- C9: for one entity saved through the wrapper with non-decreasing
pre-sentinel clock readings and then sealed at `tseal`, its history rows —
already in `valid_from` order — form contiguous, non-overlapping intervals
whose boundaries are exactly the save times, starting at the first insert
time and ending at the seal time. -/
theorem contiguous_timeline (p : Nat) (evs : List (Timestamp × Instance))
    (tseal : Timestamp) (edel : Instance)
    (hne : evs ≠ [])
    (hpk : ∀ te ∈ evs, te.2.pk = some p)
    (hts : ∀ te ∈ evs, te.1 < MAX_DATETIME)
    (hmono : (evs.map Prod.fst).Pairwise (· ≤ ·))
    (heff : effectiveRun initState evs = true)
    (hdel : edel.pk = some p)
    (hsle : ∀ te ∈ evs, te.1 ≤ tseal)
    (hseal : tseal < MAX_DATETIME) :
    froms (sealedRecsFor p evs tseal edel) = evs.map Prod.fst ∧
    untils (sealedRecsFor p evs tseal edel) =
      (evs.map Prod.fst).drop 1 ++ [tseal] ∧
    contiguousB (sealedRecsFor p evs tseal edel) = true ∧
    (froms (sealedRecsFor p evs tseal edel)).Pairwise (· ≤ ·) ∧
    ∀ r ∈ sealedRecsFor p evs tseal edel,
      r.valid_from ≤ r.valid_until := by
  have hrun := runSaves_timeline p evs initState [] rfl rfl hpk hts
    (by intro s hs; exact absurd hs (by simp)) hmono heff
  rw [List.nil_append] at hrun
  have hseal_eq : sealedRecsFor p evs tseal edel =
      (recordsFor p (runSaves initState evs).history).map
        (closeRecord (some p) tseal) := by
    unfold sealedRecsFor
    rw [close_task_updates_eq_closeOpen, hdel, recordsFor_closeOpen]
  have hf : froms (sealedRecsFor p evs tseal edel) = evs.map Prod.fst := by
    rw [hseal_eq, froms_map_close, hrun.1]
  obtain ⟨t1, T2, hTeq⟩ : ∃ t1 T2, evs.map Prod.fst = t1 :: T2 := by
    cases evs with
    | nil => exact absurd rfl hne
    | cons te rest => exact ⟨te.1, rest.map Prod.fst, rfl⟩
  have hu : untils (sealedRecsFor p evs tseal edel) =
      (evs.map Prod.fst).drop 1 ++ [tseal] := by
    rw [hseal_eq]
    refine untils_map_close p tseal _ ((evs.map Prod.fst).drop 1)
      (fun r hr => mem_recordsFor p _ r hr) ?_ ?_ hseal
    · rw [hrun.2, hTeq]
      rfl
    · intro s hs
      have hs2 : s ∈ evs.map Prod.fst := List.mem_of_mem_drop hs
      obtain ⟨te, hte, hfe⟩ := List.mem_map.mp hs2
      rw [← hfe]
      exact hsle te hte
  refine ⟨hf, hu, ?_, ?_, ?_⟩
  · apply contiguousB_of_untils _ tseal
    rw [hu, hf]
  · rw [hf]
    exact hmono
  · refine from_le_until_of_untils _ tseal (by rw [hu, hf]) ?_ ?_
    · rw [hf]
      exact hmono
    · intro s hs
      rw [hf] at hs
      obtain ⟨te, hte, hfe⟩ := List.mem_map.mp hs
      rw [← hfe]
      exact hsle te hte

/-- Witness for C9: insert entity 1 at time 0, update it at time 10, seal at
time 30; the timeline is the two intervals with boundaries 0, 10, 30. -/
theorem contiguous_timeline_witness :
    froms (sealedRecsFor 1 [((0 : Timestamp), entA), (10, entB)] 30 entA) =
      List.map Prod.fst [((0 : Timestamp), entA), (10, entB)] ∧
    untils (sealedRecsFor 1 [((0 : Timestamp), entA), (10, entB)] 30 entA) =
      (List.map Prod.fst [((0 : Timestamp), entA), (10, entB)]).drop 1 ++
        [30] ∧
    contiguousB
      (sealedRecsFor 1 [((0 : Timestamp), entA), (10, entB)] 30 entA) =
      true ∧
    (froms (sealedRecsFor 1 [((0 : Timestamp), entA), (10, entB)] 30
      entA)).Pairwise (· ≤ ·) ∧
    ∀ r ∈ sealedRecsFor 1 [((0 : Timestamp), entA), (10, entB)] 30 entA,
      r.valid_from ≤ r.valid_until :=
  contiguous_timeline 1 [(0, entA), (10, entB)] 30 entA (by decide)
    (by decide) (by decide) (by decide) (by decide) (by decide) (by decide)
    (by decide)

end KeepHistory
